import Mathlib

/-!
Verification of the telecue voice-synchronized scroll engine.

This file gives a shallow embedding of the core of the repository:
the transcription transport (AssemblyAIProvider), the alignment matcher
(findBestMatchIndex and friends), the scroll coordinator logic in the
prompter screen, and the layout estimator (estimateScrollY and
estimateCharFromScrollY).  JavaScript numbers are modelled as rationals
where fractional values matter and as naturals for indices and counters;
strings are modelled as lists of characters.
-/

/- ============================================================ -/
/- Transcription transport: AssemblyAIProvider                   -/
/- ============================================================ -/

/-- Connection states of the provider (the ProviderState union type). -/
inductive ProviderState
  | IDLE
  | CONNECTING
  | RECORDING
  | STOPPING
  | ERROR
deriving DecidableEq

/-- RECONNECT_DELAY constant (ms). -/
def RECONNECT_DELAY : ℕ := 1000

/-- MAX_RECONNECT_ATTEMPTS constant. -/
def MAX_RECONNECT_ATTEMPTS : ℕ := 5

/-- Observable state of an AssemblyAIProvider instance, together with the
bookkeeping the claims talk about: whether the native recording (microphone)
is held, how many times stopRecording has been invoked, the delay of the most
recently scheduled reconnect, and the list of errors handed to the error
callback. -/
structure ProviderModel where
  state : ProviderState
  reconnectAttempts : ℕ
  shouldReconnect : Bool
  sessionStarted : Bool
  micActive : Bool
  socketOpen : Bool
  cleanupInFlight : Bool
  stopRecordingCalls : ℕ
  scheduledDelay : Option ℕ
  errorsEmitted : List String
deriving DecidableEq

/-- Body of AssemblyAIProvider.cleanup: stops the native recording
(releasing the microphone), removes the audio listener and closes the
socket. -/
def cleanupRun (m : ProviderModel) : ProviderModel :=
  { m with micActive := false,
           stopRecordingCalls := m.stopRecordingCalls + 1,
           socketOpen := false }

/-- Delivery of an error to the registered error callback. -/
def emitError (msg : String) (m : ProviderModel) : ProviderModel :=
  { m with errorsEmitted := m.errorsEmitted ++ [msg] }

/-- One unexpected socket close event: AssemblyAIProvider.handleClose.
If reconnection is desired, attempts remain below the cap and the provider
is not deliberately stopping, the attempt counter is bumped and a reconnect
is scheduled with exponential backoff; otherwise (unless stopping) the
provider settles to IDLE, cleans up, and emits a single terminal error when
a recording session was actually live. -/
def handleClose (m : ProviderModel) : ProviderModel :=
  if m.shouldReconnect = true ∧ m.reconnectAttempts < MAX_RECONNECT_ATTEMPTS ∧
      m.state ≠ ProviderState.STOPPING then
    let attempts := m.reconnectAttempts + 1
    { m with reconnectAttempts := attempts,
             scheduledDelay := some (RECONNECT_DELAY * 2 ^ (attempts - 1)) }
  else if m.state ≠ ProviderState.STOPPING then
    let wasRecording := m.state = ProviderState.RECORDING
    let m1 := cleanupRun { m with state := ProviderState.IDLE }
    if wasRecording ∧ m.shouldReconnect = true then
      emitError "Connection lost and could not be recovered" m1
    else m1
  else m

/-- Provider state right after a successful session start: the socket open
handler has reset the reconnect counter, native recording holds the
microphone, and the session is live (state RECORDING). -/
def streamingInit : ProviderModel :=
  { state := ProviderState.RECORDING
    reconnectAttempts := 0
    shouldReconnect := true
    sessionStarted := true
    micActive := true
    socketOpen := true
    cleanupInFlight := false
    stopRecordingCalls := 0
    scheduledDelay := none
    errorsEmitted := [] }

/-- How a call to AssemblyAIProvider.stop returned. -/
inductive StopOutcome
  | earlyReturn
  | joined
  | startedCleanup
deriving DecidableEq

/-- Synchronous prologue of AssemblyAIProvider.stop: an already stopping or
idle provider returns at once; otherwise the call moves to STOPPING, disables
reconnection, and either joins the in-flight cleanup promise or starts a new
cleanup (whose body immediately stops the native recording). -/
def stopCall (m : ProviderModel) : ProviderModel × StopOutcome :=
  if m.state = ProviderState.STOPPING ∨ m.state = ProviderState.IDLE then
    (m, StopOutcome.earlyReturn)
  else
    let m1 := { m with state := ProviderState.STOPPING,
                       shouldReconnect := false,
                       sessionStarted := false }
    if m1.cleanupInFlight then (m1, StopOutcome.joined)
    else (cleanupRun { m1 with cleanupInFlight := true }, StopOutcome.startedCleanup)

/-- Settlement of the cleanup promise: the finally handler clears the stored
promise and moves the provider to IDLE. -/
def cleanupSettle (m : ProviderModel) : ProviderModel :=
  { m with cleanupInFlight := false, state := ProviderState.IDLE }

/- ============================================================ -/
/- Scroll coordinator: inactivity handling (prompter.tsx)        -/
/- ============================================================ -/

/-- Scroll modes of the prompter screen. -/
inductive ScrollMode
  | auto
  | fixed
  | wpm
deriving DecidableEq

/-- The slice of the prompter UI state the inactivity timer touches. -/
structure PrompterUIState where
  scrollMode : ScrollMode
  inactivityAlerts : ℕ
deriving DecidableEq

/-- Window of the inactivity timer in milliseconds. -/
def INACTIVITY_TIMEOUT_MS : ℕ := 10000

/-- Firing of the inactivity timer callback: when still in auto mode the
handler itself switches scrollMode to fixed and shows the inactivity
alert. -/
def inactivityTimerFire (s : PrompterUIState) : PrompterUIState :=
  if s.scrollMode = ScrollMode.auto then
    { scrollMode := ScrollMode.fixed, inactivityAlerts := s.inactivityAlerts + 1 }
  else s

/- ============================================================ -/
/- Alignment matcher: normalizeText, compareStrings,             -/
/- findBestMatchIndex (src/db/schema.ts)                         -/
/- ============================================================ -/

/-- A character of the \w class of the JavaScript regexes used here
(ASCII letters, digits, underscore). -/
def isWordChar (c : Char) : Bool := c.isAlphanum || c = '_'

/-- A whitespace character (the \s class). -/
def isSpaceChar (c : Char) : Bool := c.isWhitespace

/-- Strings are modelled as lists of characters. -/
def wd (s : String) : List Char := s.toList

mutual

/-- Splitting on runs of whitespace, JavaScript split(/\s+/) semantics:
accumulates the current field (reversed) while scanning. -/
def splitWsGo : List Char → List Char → List (List Char)
  | [], cur => [cur.reverse]
  | c :: rest, cur =>
    if isSpaceChar c then cur.reverse :: splitWsSkip rest
    else splitWsGo rest (c :: cur)

/-- Consuming the remainder of a whitespace run. -/
def splitWsSkip : List Char → List (List Char)
  | [] => [[]]
  | c :: rest => if isSpaceChar c then splitWsSkip rest else splitWsGo rest [c]

end

/-- JavaScript split(/\s+/): fields between maximal whitespace runs; the
empty string yields one empty field, and leading or trailing whitespace
yields an empty first or last field. -/
def splitWs (s : List Char) : List (List Char) := splitWsGo s []

/-- normalizeText: lowercase, strip every character outside \w and \s,
trim surrounding whitespace. -/
def normalizeText (s : List Char) : List Char :=
  ((((s.map Char.toLower).filter fun c =>
      isWordChar c || isSpaceChar c).dropWhile isSpaceChar).reverse.dropWhile
        isSpaceChar).reverse

/-- compareStrings: word-overlap similarity in [0, 1]; a word of s1 found at
the same position in s2 scores 1, found elsewhere scores 0.4, absent scores
0; the total is divided by the word count of s1. -/
def compareStrings (s1 s2 : List Char) : ℚ :=
  if s1 = s2 then 1
  else if s1 = [] ∨ s2 = [] then 0
  else
    let words1 := splitWs s1
    let words2 := splitWs s2
    let matchTotal := words1.enum.foldl
      (fun (acc : ℚ) (p : ℕ × List Char) =>
        if words2.get? p.1 = some p.2 then acc + 1
        else if words2.contains p.2 then acc + 2/5
        else acc) 0
    matchTotal / (words1.length : ℚ)

/-- findBestMatchIndex: finds where in the script the speaker currently is.
The last 4 transcript words are compared against equal-length script slices
inside a bounded look-ahead window starting at the previous cursor; the best
candidate above the threshold wins, with a proximity bonus favouring nearby
candidates.  Indices are modelled as naturals (the app passes cursors in
[0, scriptWords.length - 1]). -/
def findBestMatchIndex (scriptWords : List (List Char)) (transcript : List Char)
    (lastMatchIndex : ℕ := 0) (expandedSearch : Bool := false) : ℕ :=
  if scriptWords.length = 0 then 0
  else
    let normalizedTranscript := normalizeText transcript
    if normalizedTranscript = [] then lastMatchIndex
    else
      let transcriptWords := splitWs normalizedTranscript
      if transcriptWords.length < 3 then lastMatchIndex
      else
        let searchWindow := transcriptWords.drop (transcriptWords.length - 4)
        let searchString := List.intercalate [' '] searchWindow
        let SEARCH_AHEAD_LIMIT : ℕ := if expandedSearch then 50 else 10
        let startIndex := lastMatchIndex
        let endIndex := min scriptWords.length (lastMatchIndex + SEARCH_AHEAD_LIMIT)
        let isShortSearch := searchWindow.length < 3
        let threshold : ℚ :=
          if isShortSearch then 19/20 else if expandedSearch then 3/5 else 3/4
        let actualWindowSize := min searchWindow.length (endIndex - startIndex)
        if actualWindowSize = 0 then min lastMatchIndex (scriptWords.length - 1)
        else
          let step := fun (best : ℕ × ℚ) (i : ℕ) =>
            let sliceLength := min searchWindow.length (scriptWords.length - i)
            let scriptSlice := List.intercalate [' '] ((scriptWords.drop i).take sliceLength)
            let normalizedScriptSlice := normalizeText scriptSlice
            let similarity := compareStrings searchString normalizedScriptSlice
            let distance := i - lastMatchIndex
            let proximityBonus : ℚ :=
              max 0 (((SEARCH_AHEAD_LIMIT : ℚ) - (distance : ℕ)) /
                (SEARCH_AHEAD_LIMIT : ℚ) * (1/10))
            let finalScore := similarity + proximityBonus
            if threshold ≤ similarity ∧ best.2 < finalScore then
              (i + sliceLength - 1, finalScore)
            else best
          let best := (List.range' startIndex (endIndex - actualWindowSize + 1 - startIndex)).foldl
            step (lastMatchIndex, 0)
          max 0 (min best.1 (scriptWords.length - 1))

/-- The script of the exact-match scenario, word by word. -/
def helloScript : List (List Char) :=
  [wd "Hello", wd "everyone", wd "welcome", wd "to", wd "our",
   wd "presentation", wd "today"]

/- ============================================================ -/
/- Scroll coordinator: the automatic transcript matching effect  -/
/- (prompter.tsx)                                                -/
/- ============================================================ -/

/-- The slice of the prompter state the automatic matching effect reads and
writes: the match cursor into cleanWords and the manual-scroll override
flag. -/
structure MatchState where
  lastMatchIndex : ℕ
  userDidScroll : Bool
deriving DecidableEq

/-- One run of the automatic transcript matching effect, restricted to its
cursor updates: run the matcher from the current cursor, drop out-of-bounds
results, block large jumps in the initial phase, and advance the cursor only
when the candidate lies strictly ahead of it. -/
def transcriptMatchStep (cleanWords : List (List Char)) (transcript : List Char)
    (st : MatchState) : MatchState :=
  if cleanWords.length = 0 ∨ transcript = [] then st
  else
    let newCleanIndex :=
      findBestMatchIndex cleanWords transcript st.lastMatchIndex st.userDidScroll
    if cleanWords.length ≤ newCleanIndex then st
    else if st.userDidScroll = false ∧ st.lastMatchIndex = 0 ∧ 15 < newCleanIndex then st
    else if st.lastMatchIndex < newCleanIndex then
      { lastMatchIndex := newCleanIndex, userDidScroll := false }
    else st

/- ============================================================ -/
/- Layout estimator: estimateScrollY, estimateCharFromScrollY   -/
/- (src/unnamed/part_003)                                        -/
/- ============================================================ -/

/-- Layout parameters of the prompter text view. -/
structure LayoutConfig where
  fontSize : ℚ
  windowWidth : ℚ
  isLandscape : Bool
  scriptMargin : ℚ

/-- Replacement of CR LF pairs by LF, the newline normalization both
estimator functions apply first (a left-to-right scan, as the global regex
replace does). -/
def normalizeNewlines : List Char → List Char
  | [] => []
  | [c] => [c]
  | c :: c2 :: rest =>
    if c = '\r' ∧ c2 = '\n' then '\n' :: normalizeNewlines rest
    else c :: normalizeNewlines (c2 :: rest)

/-- JavaScript split on the newline character: the list of source lines
(an empty text yields one empty line). -/
def splitNL : List Char → List (List Char)
  | [] => [[]]
  | c :: rest =>
    if c = '\n' then [] :: splitNL rest
    else (c :: (splitNL rest).headI) :: (splitNL rest).tail

/-- Estimated characters per visual line: max(10, availableWidth / charWidth)
with the empirical 0.32 character width factor on the effective font size. -/
def charsPerLine (cfg : LayoutConfig) : ℚ :=
  let sidePadding : ℚ := if cfg.isLandscape then 60 else 24
  let totalHorizontalPadding := sidePadding * 2 + cfg.scriptMargin * 2
  let availableWidth := cfg.windowWidth - totalHorizontalPadding
  let effectiveFontSize := cfg.fontSize * 8 + 16
  let charWidth := effectiveFontSize * (8/25)
  max 10 (availableWidth / charWidth)

/-- Visual (wrapped) lines occupied by a source line of the given length:
max(1, ceil(length / charsPerLine)), so blank lines still take one line. -/
def visualLinesOf (cpl : ℚ) (lineLength : ℕ) : ℤ :=
  max 1 ⌈(lineLength : ℚ) / cpl⌉

/-- First pass of both estimator functions: total visual line count. -/
def totalVisualLines (cpl : ℚ) (lines : List (List Char)) : ℤ :=
  (lines.map fun l => visualLinesOf cpl l.length).sum

/-- Second pass of estimateScrollY: walks the source lines with the running
visual line count and character count, looking for the segment containing
charIndex.  Sum.inl is the target visual line on a match; Sum.inr carries the
final character count when charIndex lies past every segment. -/
def forwardWalk (cpl charIndex : ℚ) :
    List (List Char) → ℤ → ℚ → ℤ ⊕ ℚ
  | [], _, currentCharCount => Sum.inr currentCharCount
  | line :: rest, currentLineCount, currentCharCount =>
    let lineLength : ℕ := line.length
    let segmentEnd := currentCharCount + lineLength + 1
    if currentCharCount ≤ charIndex ∧ charIndex < segmentEnd then
      let offsetInLine := max 0 (charIndex - currentCharCount)
      let effectiveOffset := min offsetInLine (lineLength : ℚ)
      Sum.inl (currentLineCount + ⌊effectiveOffset / cpl⌋)
    else
      forwardWalk cpl charIndex rest
        (currentLineCount + visualLinesOf cpl lineLength) segmentEnd

/-- The visual line estimateScrollY assigns to charIndex: the matched
segment's line, the last visual line when charIndex lies past the end, or
line 0 for an index before the start. -/
def targetLineCountOf (cpl charIndex : ℚ) (lines : List (List Char)) : ℤ :=
  match forwardWalk cpl charIndex lines 0 0 with
  | Sum.inl t => t
  | Sum.inr finalCharCount =>
    if finalCharCount ≤ charIndex then totalVisualLines cpl lines - 1 else 0

/-- estimateScrollY: estimates the (negative) vertical scroll position for a
character index, as the fraction of visual lines before it scaled by the
content height. -/
def estimateScrollY (charIndex : ℚ) (plainText : List Char)
    (contentHeight : ℚ) (cfg : LayoutConfig) : ℚ :=
  let normalizedText := normalizeNewlines plainText
  if normalizedText = [] ∨ contentHeight ≤ 0 then 0
  else
    let cpl := charsPerLine cfg
    let lines := splitNL normalizedText
    let total := totalVisualLines cpl lines
    if total = 0 then 0
    else
      -(min 1 ((targetLineCountOf cpl charIndex lines : ℚ) / (total : ℚ)) *
        contentHeight)

/-- Second pass of estimateCharFromScrollY: walks the source lines to the
segment containing the target visual line and returns the character offset
at the start of that visual line (a fractional multiple of charsPerLine,
clamped to the line length); none when the target lies past every segment. -/
def inverseWalk (cpl : ℚ) (targetVisualLine : ℤ) :
    List (List Char) → ℤ → ℚ → Option ℚ
  | [], _, _ => none
  | line :: rest, currentVisualLine, currentCharIndex =>
    let lineLength : ℕ := line.length
    let visualLinesInSegment := visualLinesOf cpl lineLength
    if targetVisualLine < currentVisualLine + visualLinesInSegment then
      let linesIntoSegment := targetVisualLine - currentVisualLine
      let charOffset := (linesIntoSegment : ℚ) * cpl
      some (currentCharIndex + min charOffset (lineLength : ℚ))
    else
      inverseWalk cpl targetVisualLine rest
        (currentVisualLine + visualLinesInSegment)
        (currentCharIndex + lineLength + 1)

/-- estimateCharFromScrollY: reverse of estimateScrollY, estimating the
character index at a scroll position. -/
def estimateCharFromScrollY (scrollY : ℚ) (plainText : List Char)
    (contentHeight : ℚ) (cfg : LayoutConfig) : ℚ :=
  let normalizedText := normalizeNewlines plainText
  if normalizedText = [] ∨ contentHeight ≤ 0 then 0
  else
    let cpl := charsPerLine cfg
    let scrollProgress := |scrollY| / contentHeight
    let lines := splitNL normalizedText
    let total := totalVisualLines cpl lines
    let targetVisualLine := ⌊scrollProgress * (total : ℚ)⌋
    match inverseWalk cpl targetVisualLine lines 0 0 with
    | some c => c
    | none => ((normalizedText.length : ℕ) : ℚ)

/-- Sum of (length + 1) over source lines: the character span the walks
accumulate, one more than the text length (each line is counted with its
following newline, the last one with the end of text). -/
def fullSpan (lines : List (List Char)) : ℚ :=
  (lines.map fun l => (l.length : ℚ) + 1).sum

/-- A layout configuration whose charsPerLine is the fractional 21/2:
portrait, margin 0, fontSize 3 (character width 12.8), window width 182.4
(so 134.4 available width). -/
def layoutCfgExample : LayoutConfig :=
  { fontSize := 3, windowWidth := 912/5, isLandscape := false, scriptMargin := 0 }

/- ============================================================ -/
/- Theorems for the transport and coordinator claims             -/
/- ============================================================ -/

/-- C3 counterexample: after exactly 5 consecutive unexpected closes from a
fresh streaming session (attempt cap 5), no terminal error has been emitted
yet, the state is still RECORDING and the microphone is still held; the fifth
close merely schedules the fifth reconnect attempt. -/
theorem C3_five_closes_not_terminal :
    (handleClose^[5] streamingInit).errorsEmitted = [] ∧
    (handleClose^[5] streamingInit).state = ProviderState.RECORDING ∧
    (handleClose^[5] streamingInit).micActive = true := by
  refine ⟨by decide, by decide, by decide⟩

/-- Helper: once the provider is IDLE with the attempt cap reached, a further
close keeps it IDLE at the cap, emits no new error, and leaves the microphone
released. -/
theorem handleClose_terminal_invariant (m : ProviderModel)
    (hs : m.state = ProviderState.IDLE)
    (ha : m.reconnectAttempts = MAX_RECONNECT_ATTEMPTS) :
    (handleClose m).state = ProviderState.IDLE ∧
    (handleClose m).reconnectAttempts = MAX_RECONNECT_ATTEMPTS ∧
    (handleClose m).errorsEmitted = m.errorsEmitted ∧
    (handleClose m).micActive = false := by
  unfold handleClose
  have h1 : ¬(m.shouldReconnect = true ∧ m.reconnectAttempts < MAX_RECONNECT_ATTEMPTS ∧
      m.state ≠ ProviderState.STOPPING) := by
    rintro ⟨-, h, -⟩
    rw [ha] at h
    exact lt_irrefl _ h
  have h2 : m.state ≠ ProviderState.STOPPING := by rw [hs]; decide
  have h3 : ¬(m.state = ProviderState.RECORDING ∧ m.shouldReconnect = true) := by
    rintro ⟨h, -⟩
    rw [hs] at h
    exact absurd h (by decide)
  rw [if_neg h1, if_pos h2, if_neg h3]
  simp [cleanupRun, ha]

/-- C3 amended: after 6 consecutive unexpected closes (the close of the live
session plus the failures of all 5 reconnect attempts) exactly one terminal
session-lost error is emitted, the state settles at IDLE, the microphone is
released, and any number of further closes leaves the emitted errors, the
state and the microphone unchanged. -/
theorem C3_terminal_after_six_closes :
    (handleClose^[6] streamingInit).errorsEmitted =
      ["Connection lost and could not be recovered"] ∧
    (handleClose^[6] streamingInit).state = ProviderState.IDLE ∧
    (handleClose^[6] streamingInit).micActive = false ∧
    ∀ n : ℕ,
      (handleClose^[n] (handleClose^[6] streamingInit)).errorsEmitted =
        ["Connection lost and could not be recovered"] ∧
      (handleClose^[n] (handleClose^[6] streamingInit)).state = ProviderState.IDLE ∧
      (handleClose^[n] (handleClose^[6] streamingInit)).micActive = false := by
  have key : ∀ n : ℕ,
      (handleClose^[n] (handleClose^[6] streamingInit)).state = ProviderState.IDLE ∧
      (handleClose^[n] (handleClose^[6] streamingInit)).reconnectAttempts =
        MAX_RECONNECT_ATTEMPTS ∧
      (handleClose^[n] (handleClose^[6] streamingInit)).errorsEmitted =
        ["Connection lost and could not be recovered"] ∧
      (handleClose^[n] (handleClose^[6] streamingInit)).micActive = false := by
    intro n
    induction n with
    | zero => exact ⟨by decide, by decide, by decide, by decide⟩
    | succ k ih =>
      obtain ⟨hs, ha, he, hm⟩ := ih
      rw [Function.iterate_succ_apply']
      obtain ⟨s1, s2, s3, s4⟩ := handleClose_terminal_invariant _ hs ha
      exact ⟨s1, s2, by rw [s3, he], s4⟩
  exact ⟨(key 0).2.2.1, (key 0).1, (key 0).2.2.2,
    fun n => ⟨(key n).2.2.1, (key n).1, (key n).2.2.2⟩⟩

/-- C6: an unexpected close with reconnection desired and attempts below the
cap schedules the next reconnect with delay RECONNECT_DELAY * 2 ^ (attempt - 1)
where attempt is the incremented counter; concretely the 3rd consecutive
reconnect attempt after a streaming session is scheduled 4000 ms after the
preceding close. -/
theorem C6_backoff (m : ProviderModel) (h1 : m.shouldReconnect = true)
    (h2 : m.reconnectAttempts < MAX_RECONNECT_ATTEMPTS)
    (h3 : m.state ≠ ProviderState.STOPPING) :
    (handleClose m).scheduledDelay =
      some (RECONNECT_DELAY * 2 ^ ((m.reconnectAttempts + 1) - 1)) ∧
    (handleClose^[3] streamingInit).scheduledDelay = some 4000 ∧
    4000 ≤ 1000 * 2 ^ (3 - 1) := by
  refine ⟨?_, by decide, by decide⟩
  unfold handleClose
  rw [if_pos ⟨h1, h2, h3⟩]

/-- C6 witness at the fresh streaming state. -/
theorem C6_backoff_witness :
    (handleClose streamingInit).scheduledDelay =
      some (RECONNECT_DELAY * 2 ^ ((streamingInit.reconnectAttempts + 1) - 1)) ∧
    (handleClose^[3] streamingInit).scheduledDelay = some 4000 ∧
    4000 ≤ 1000 * 2 ^ (3 - 1) :=
  C6_backoff streamingInit (by decide) (by decide) (by decide)

/-- C7: when stop() is called on an active (recording) session and a second
stop() arrives while the first call's cleanup is still in flight, the first
call starts the single cleanup (invoking stopRecording exactly once), the
second call returns early without touching the microphone, and after the
cleanup settles the provider is IDLE with the microphone released; neither
call fails. -/
theorem C7_stop_idempotent (m : ProviderModel)
    (hrec : m.state = ProviderState.RECORDING)
    (hflight : m.cleanupInFlight = false) :
    (stopCall m).2 = StopOutcome.startedCleanup ∧
    (stopCall (stopCall m).1).2 = StopOutcome.earlyReturn ∧
    (stopCall (stopCall m).1).1.stopRecordingCalls = m.stopRecordingCalls + 1 ∧
    (cleanupSettle (stopCall (stopCall m).1).1).state = ProviderState.IDLE ∧
    (cleanupSettle (stopCall (stopCall m).1).1).micActive = false := by
  have hne : ¬ (m.state = ProviderState.STOPPING ∨ m.state = ProviderState.IDLE) := by
    rw [hrec]; decide
  unfold stopCall
  rw [if_neg hne]
  simp only [hflight]
  unfold cleanupRun cleanupSettle
  simp

/-- C7 witness at the fresh streaming state. -/
theorem C7_stop_idempotent_witness :
    (stopCall streamingInit).2 = StopOutcome.startedCleanup ∧
    (stopCall (stopCall streamingInit).1).2 = StopOutcome.earlyReturn ∧
    (stopCall (stopCall streamingInit).1).1.stopRecordingCalls =
      streamingInit.stopRecordingCalls + 1 ∧
    (cleanupSettle (stopCall (stopCall streamingInit).1).1).state = ProviderState.IDLE ∧
    (cleanupSettle (stopCall (stopCall streamingInit).1).1).micActive = false :=
  C7_stop_idempotent streamingInit (by decide) (by decide)

/-- C5 counterexample: the inactivity timer handler does not leave the scroll
mode to the caller; fired in auto mode it switches the mode to fixed itself,
so the mode after firing differs from auto. -/
theorem C5_handler_changes_mode :
    (inactivityTimerFire ⟨ScrollMode.auto, 0⟩).scrollMode = ScrollMode.fixed ∧
    ScrollMode.fixed ≠ ScrollMode.auto := by
  refine ⟨by decide, by decide⟩

/-- C5 amended: if no transcript update arrives within the 10 second window
while auto (voice-sync) mode is active, the inactivity handler itself both
switches the scroll mode to fixed and shows the inactivity notification; the
fallback is performed internally, not left to the caller. -/
theorem C5_inactivity_fallback (s : PrompterUIState)
    (h : s.scrollMode = ScrollMode.auto) :
    inactivityTimerFire s =
      { scrollMode := ScrollMode.fixed, inactivityAlerts := s.inactivityAlerts + 1 } ∧
    INACTIVITY_TIMEOUT_MS = 10000 := by
  refine ⟨?_, rfl⟩
  unfold inactivityTimerFire
  rw [if_pos h]

/-- C5 witness. -/
theorem C5_inactivity_fallback_witness :
    inactivityTimerFire ⟨ScrollMode.auto, 2⟩ =
      { scrollMode := ScrollMode.fixed, inactivityAlerts := 2 + 1 } ∧
    INACTIVITY_TIMEOUT_MS = 10000 :=
  C5_inactivity_fallback ⟨ScrollMode.auto, 2⟩ rfl

/- ============================================================ -/
/- Theorems for the alignment matcher claims                     -/
/- ============================================================ -/

/-- C1: across any sequence of automatic transcript-driven updates (no manual
action), the match cursor is non-decreasing: each step can only keep or raise
lastMatchIndex, any fold over transcripts keeps the cursor at or above its
start, and a matcher candidate strictly behind the cursor leaves the state
unchanged. -/
theorem C1_cursor_monotone (cleanWords : List (List Char)) :
    (∀ (st : MatchState) (t : List Char),
       st.lastMatchIndex ≤ (transcriptMatchStep cleanWords t st).lastMatchIndex) ∧
    (∀ (st : MatchState) (ts : List (List Char)),
       st.lastMatchIndex ≤
         (ts.foldl (fun s t => transcriptMatchStep cleanWords t s) st).lastMatchIndex) ∧
    (∀ (st : MatchState) (t : List Char),
       findBestMatchIndex cleanWords t st.lastMatchIndex st.userDidScroll <
           st.lastMatchIndex →
         transcriptMatchStep cleanWords t st = st) := by
  have hstep : ∀ (st : MatchState) (t : List Char),
      st.lastMatchIndex ≤ (transcriptMatchStep cleanWords t st).lastMatchIndex := by
    intro st t
    simp only [transcriptMatchStep]
    split_ifs with h1 h2 h3 h4
    · exact le_refl _
    · exact le_refl _
    · exact le_refl _
    · exact le_of_lt h4
    · exact le_refl _
  refine ⟨hstep, ?_, ?_⟩
  · intro st ts
    induction ts generalizing st with
    | nil => exact le_refl _
    | cons t ts ih => exact le_trans (hstep st t) (ih _)
  · intro st t h
    simp only [transcriptMatchStep]
    split_ifs with h1 h2 h3 h4
    · rfl
    · rfl
    · rfl
    · exact absurd h4 (by omega)
    · rfl

/-- C1 witness: on a one-word script with the cursor (out of the matcher's
reach) at 1, the matcher proposes 0, a backward candidate, and the step
leaves the state unchanged. -/
theorem C1_cursor_monotone_witness :
    (⟨1, false⟩ : MatchState).lastMatchIndex ≤
      (transcriptMatchStep [wd "a"] (wd "x y z") ⟨1, false⟩).lastMatchIndex ∧
    transcriptMatchStep [wd "a"] (wd "x y z") ⟨1, false⟩ = ⟨1, false⟩ :=
  ⟨(C1_cursor_monotone [wd "a"]).1 ⟨1, false⟩ (wd "x y z"),
   (C1_cursor_monotone [wd "a"]).2.2 ⟨1, false⟩ (wd "x y z") (by decide)⟩

/-- C2: on the script Hello everyone welcome to our presentation today with
transcript welcome to our, cursor 0 and normal (non-expanded) search, the
matcher returns word index 4 (our), and the accepted candidate slice
(script words 2..4) scores similarity exactly 1. -/
theorem C2_exact_match_scenario :
    findBestMatchIndex helloScript (wd "welcome to our") 0 false = 4 ∧
    compareStrings (normalizeText (wd "welcome to our"))
      (normalizeText (List.intercalate [' '] ((helloScript.drop 2).take 3))) = 1 := by
  constructor
  · simp [findBestMatchIndex, helloScript, compareStrings, splitWs, splitWsGo, splitWsSkip,
      isSpaceChar, isWordChar, normalizeText, wd,
      List.enum, List.enumFrom, List.foldl, List.get?, List.contains, List.elem,
      List.range', List.intercalate]
    norm_num [max_def, min_def]
  · decide

/-- C8 counterexample: on the empty script word list the claim fails: a
transcript with fewer than 3 tokens and cursor 5 yields 0, not the cursor. -/
theorem C8_empty_script_resets_cursor :
    findBestMatchIndex [] (wd "the") 5 false = 0 ∧ (0 : ℕ) ≠ 5 := by
  exact ⟨rfl, by decide⟩

/-- C8 amended: for every non-empty script word list, every cursor value and
every transcript whose normalized form has fewer than 3 tokens, the matcher
returns the cursor unchanged.  (On the empty script word list the code
returns 0 regardless of the cursor.) -/
theorem C8_short_input_rejected (scriptWords : List (List Char))
    (transcript : List Char) (lastMatchIndex : ℕ) (expandedSearch : Bool)
    (hne : scriptWords ≠ [])
    (hshort : (splitWs (normalizeText transcript)).length < 3) :
    findBestMatchIndex scriptWords transcript lastMatchIndex expandedSearch =
      lastMatchIndex := by
  simp only [findBestMatchIndex]
  rw [if_neg (by simpa using hne)]
  by_cases hnt : normalizeText transcript = []
  · rw [if_pos hnt]
  · rw [if_neg hnt, if_pos hshort]

/-- C8 witness. -/
theorem C8_short_input_rejected_witness :
    findBestMatchIndex [wd "a"] (wd "the") 7 false = 7 :=
  C8_short_input_rejected [wd "a"] (wd "the") 7 false (by decide) (by decide)

/-- C9: for a non-empty script word list and a cursor within
[0, scriptWords.length - 1], every result of findBestMatchIndex lies within
[0, scriptWords.length - 1] (the result type is a natural, so 0 is a lower
bound); on the empty script word list the result is 0. -/
theorem C9_result_in_bounds (scriptWords : List (List Char))
    (transcript : List Char) (lastMatchIndex : ℕ) (expandedSearch : Bool)
    (hne : scriptWords ≠ [])
    (hcur : lastMatchIndex ≤ scriptWords.length - 1) :
    findBestMatchIndex scriptWords transcript lastMatchIndex expandedSearch ≤
      scriptWords.length - 1 ∧
    findBestMatchIndex [] transcript lastMatchIndex expandedSearch = 0 := by
  constructor
  · simp only [findBestMatchIndex]
    split_ifs <;> omega
  · rfl

/-- C9 witness. -/
theorem C9_result_in_bounds_witness :
    findBestMatchIndex helloScript (wd "hi there everyone") 3 false ≤
      helloScript.length - 1 ∧
    findBestMatchIndex [] (wd "hi there everyone") 3 false = 0 :=
  C9_result_in_bounds helloScript (wd "hi there everyone") 3 false
    (by decide) (by decide)

/- ============================================================ -/
/- Theorems for the layout estimator claims                      -/
/- ============================================================ -/

/-- charsPerLine is at least 10, hence positive. -/
theorem charsPerLine_pos (cfg : LayoutConfig) : 0 < charsPerLine cfg :=
  lt_of_lt_of_le (by norm_num) (le_max_left 10 _)

/-- Every source line occupies at least one visual line. -/
theorem visualLinesOf_pos (cpl : ℚ) (L : ℕ) : 1 ≤ visualLinesOf cpl L :=
  le_max_left 1 _

/-- totalVisualLines unfolding on a cons. -/
theorem totalVisualLines_cons (cpl : ℚ) (l : List Char) (rest : List (List Char)) :
    totalVisualLines cpl (l :: rest) =
      visualLinesOf cpl l.length + totalVisualLines cpl rest := by
  simp [totalVisualLines]

/-- The total visual line count dominates the number of source lines. -/
theorem length_le_totalVisualLines (cpl : ℚ) :
    ∀ lines : List (List Char), (lines.length : ℤ) ≤ totalVisualLines cpl lines := by
  intro lines
  induction lines with
  | nil => simp [totalVisualLines]
  | cons l rest ih =>
    rw [totalVisualLines_cons]
    have h := visualLinesOf_pos cpl l.length
    simp only [List.length_cons]
    push_cast
    omega

/-- The total visual line count is non-negative. -/
theorem totalVisualLines_nonneg (cpl : ℚ) (lines : List (List Char)) :
    0 ≤ totalVisualLines cpl lines :=
  le_trans (Int.natCast_nonneg lines.length) (length_le_totalVisualLines cpl lines)

/-- fullSpan unfolding on a cons. -/
theorem fullSpan_cons (l : List Char) (rest : List (List Char)) :
    fullSpan (l :: rest) = ((l.length : ℚ) + 1) + fullSpan rest := by
  simp [fullSpan]

/-- fullSpan is non-negative. -/
theorem fullSpan_nonneg : ∀ lines : List (List Char), 0 ≤ fullSpan lines := by
  intro lines
  induction lines with
  | nil => simp [fullSpan]
  | cons l rest ih =>
    rw [fullSpan_cons]
    have h : (0 : ℚ) ≤ (l.length : ℚ) + 1 := by positivity
    linarith

/-- splitNL never returns the empty list of lines. -/
theorem splitNL_ne_nil : ∀ s : List Char, splitNL s ≠ [] := by
  intro s
  cases s with
  | nil => simp [splitNL]
  | cons c rest =>
    simp only [splitNL]
    by_cases h : c = '\n'
    · simp [h]
    · simp [h]

/-- The character span of the split lines is the text length plus one. -/
theorem fullSpan_splitNL : ∀ s : List Char, fullSpan (splitNL s) = (s.length : ℚ) + 1 := by
  intro s
  induction s with
  | nil => simp [splitNL, fullSpan]
  | cons c rest ih =>
    by_cases h : c = '\n'
    · simp only [splitNL, if_pos h, fullSpan_cons]
      push_cast [List.length_cons, List.length_nil]
      linarith
    · simp only [splitNL, if_neg h]
      obtain ⟨l, ls, hls⟩ := List.exists_cons_of_ne_nil (splitNL_ne_nil rest)
      rw [hls]
      simp only [List.headI, List.tail_cons]
      rw [fullSpan_cons]
      rw [hls, fullSpan_cons] at ih
      push_cast [List.length_cons]
      linarith

/-- Normalizing newlines of a non-empty text is non-empty. -/
theorem normalizeNewlines_ne_nil : ∀ s : List Char, s ≠ [] → normalizeNewlines s ≠ []
  | [], h => absurd rfl h
  | [c], _ => by simp [normalizeNewlines]
  | c :: c2 :: rest, _ => by
    simp only [normalizeNewlines]
    by_cases h : c = '\r' ∧ c2 = '\n'
    · simp [h]
    · simp [h]

/-- When the target visual line lies at or past the remaining total, the
inverse walk falls off the end (the caller then returns the text length). -/
theorem inverseWalk_none (cpl : ℚ) (T : ℤ) :
    ∀ (lines : List (List Char)) (cvl : ℤ) (cch : ℚ),
      cvl + totalVisualLines cpl lines ≤ T →
      inverseWalk cpl T lines cvl cch = none := by
  intro lines
  induction lines with
  | nil => intro cvl cch h; rfl
  | cons line rest ih =>
    intro cvl cch h
    rw [totalVisualLines_cons] at h
    have htot := totalVisualLines_nonneg cpl rest
    simp only [inverseWalk]
    rw [if_neg (by omega)]
    exact ih _ _ (by omega)

/-- Any hit of the inverse walk lies between the running character count and
the end of the remaining span. -/
theorem inverseWalk_some_bounds (cpl : ℚ) (hcpl : 0 < cpl) (T : ℤ) :
    ∀ (lines : List (List Char)) (cvl : ℤ) (cch : ℚ) (c : ℚ),
      cvl ≤ T → inverseWalk cpl T lines cvl cch = some c →
      cch ≤ c ∧ c ≤ cch + fullSpan lines - 1 := by
  intro lines
  induction lines with
  | nil => intro cvl cch c h1 h2; exact absurd h2 (by simp [inverseWalk])
  | cons line rest ih =>
    intro cvl cch c h1 h2
    simp only [inverseWalk] at h2
    by_cases hhit : T < cvl + visualLinesOf cpl line.length
    · rw [if_pos hhit, Option.some_inj] at h2
      have hd : (0 : ℚ) ≤ ((T - cvl : ℤ) : ℚ) := by
        push_cast
        have h : (cvl : ℚ) ≤ (T : ℚ) := by exact_mod_cast h1
        linarith
      have hmin0 : (0 : ℚ) ≤ min (((T - cvl : ℤ) : ℚ) * cpl) (line.length : ℚ) :=
        le_min (mul_nonneg hd (le_of_lt hcpl)) (Nat.cast_nonneg _)
      have hminL : min (((T - cvl : ℤ) : ℚ) * cpl) (line.length : ℚ) ≤ (line.length : ℚ) :=
        min_le_right _ _
      have hspan := fullSpan_nonneg rest
      rw [fullSpan_cons]
      constructor
      · linarith [h2.symm.le]
      · rw [← h2]; linarith
    · rw [if_neg hhit] at h2
      have hrec := ih _ _ _ (by omega) h2
      rw [fullSpan_cons]
      have hl : (0 : ℚ) ≤ (line.length : ℚ) := Nat.cast_nonneg _
      constructor
      · linarith [hrec.1]
      · linarith [hrec.2]

/-- A character index inside the remaining span is always located in some
segment by the forward walk. -/
theorem forwardWalk_finds (cpl i : ℚ) :
    ∀ (lines : List (List Char)) (cvl : ℤ) (cch : ℚ),
      cch ≤ i → i < cch + fullSpan lines →
      ∃ t, forwardWalk cpl i lines cvl cch = Sum.inl t := by
  intro lines
  induction lines with
  | nil =>
    intro cvl cch h1 h2
    simp [fullSpan] at h2
    linarith
  | cons line rest ih =>
    intro cvl cch h1 h2
    simp only [forwardWalk]
    by_cases hhit : i < cch + (line.length : ℚ) + 1
    · rw [if_pos ⟨h1, hhit⟩]
      exact ⟨_, rfl⟩
    · rw [if_neg (by push_neg; push_neg at hhit; intro h; linarith)]
      refine ih _ _ (by push_neg at hhit; linarith) ?_
      rw [fullSpan_cons] at h2
      linarith

/-- The visual line found by the forward walk is non-negative when the
running line count is. -/
theorem forwardWalk_inl_nonneg (cpl i : ℚ) (hcpl : 0 < cpl) :
    ∀ (lines : List (List Char)) (cvl : ℤ) (cch : ℚ) (t : ℤ),
      0 ≤ cvl → forwardWalk cpl i lines cvl cch = Sum.inl t → 0 ≤ t := by
  intro lines
  induction lines with
  | nil => intro cvl cch t h1 h2; exact absurd h2 (by simp [forwardWalk])
  | cons line rest ih =>
    intro cvl cch t h1 h2
    simp only [forwardWalk] at h2
    by_cases hhit : cch ≤ i ∧ i < cch + (line.length : ℚ) + 1
    · rw [if_pos hhit, Sum.inl.injEq] at h2
      have heff : (0 : ℚ) ≤ min (max 0 (i - cch)) (line.length : ℚ) :=
        le_min (le_max_left _ _) (Nat.cast_nonneg _)
      have hfl : (0 : ℤ) ≤ ⌊min (max 0 (i - cch)) (line.length : ℚ) / cpl⌋ :=
        Int.floor_nonneg.mpr (div_nonneg heff (le_of_lt hcpl))
      omega
    · rw [if_neg hhit] at h2
      have hvis := visualLinesOf_pos cpl line.length
      exact ih _ _ _ (by omega) h2

/-- The visual line found by the forward walk never exceeds the running line
count plus the remaining total, and it reaches that bound only for an index
at the very end of the span (a full last line wrapping exactly). -/
theorem forwardWalk_inl_le (cpl i : ℚ) (hcpl : 0 < cpl) :
    ∀ (lines : List (List Char)) (cvl : ℤ) (cch : ℚ) (t : ℤ),
      forwardWalk cpl i lines cvl cch = Sum.inl t →
      t ≤ cvl + totalVisualLines cpl lines ∧
      (t = cvl + totalVisualLines cpl lines → cch + fullSpan lines - 1 ≤ i) := by
  intro lines
  induction lines with
  | nil => intro cvl cch t h2; exact absurd h2 (by simp [forwardWalk])
  | cons line rest ih =>
    intro cvl cch t h2
    simp only [forwardWalk] at h2
    rw [totalVisualLines_cons, fullSpan_cons]
    by_cases hhit : cch ≤ i ∧ i < cch + (line.length : ℚ) + 1
    · rw [if_pos hhit, Sum.inl.injEq] at h2
      have heffL : min (max 0 (i - cch)) ((line.length : ℕ) : ℚ) ≤ (line.length : ℚ) :=
        min_le_right _ _
      have hdiv : min (max 0 (i - cch)) ((line.length : ℕ) : ℚ) / cpl ≤
          ((line.length : ℕ) : ℚ) / cpl := by gcongr
      have hfl : ⌊min (max 0 (i - cch)) ((line.length : ℕ) : ℚ) / cpl⌋ ≤
          ⌊((line.length : ℕ) : ℚ) / cpl⌋ := Int.floor_le_floor hdiv
      have hfc : ⌊((line.length : ℕ) : ℚ) / cpl⌋ ≤ ⌈((line.length : ℕ) : ℚ) / cpl⌉ :=
        Int.floor_le_ceil _
      have hvism : ⌈((line.length : ℕ) : ℚ) / cpl⌉ ≤ visualLinesOf cpl line.length :=
        le_max_right _ _
      have htot := totalVisualLines_nonneg cpl rest
      constructor
      · omega
      · intro ht
        have hfloor_eq : ⌊min (max 0 (i - cch)) ((line.length : ℕ) : ℚ) / cpl⌋ =
            visualLinesOf cpl line.length := by omega
        have hvis1 := visualLinesOf_pos cpl line.length
        rcases Nat.eq_zero_or_pos line.length with hL | hL
        · exfalso
          have heffz : min (max 0 (i - cch)) ((line.length : ℕ) : ℚ) = 0 := by
            rw [hL, Nat.cast_zero]
            exact le_antisymm (min_le_right _ _) (le_min (le_max_left _ _) le_rfl)
          rw [heffz, zero_div, Int.floor_zero] at hfloor_eq
          omega
        · have hLq : (0 : ℚ) < ((line.length : ℕ) : ℚ) := by exact_mod_cast hL
          have hceil1 : (1 : ℤ) ≤ ⌈((line.length : ℕ) : ℚ) / cpl⌉ :=
            Int.ceil_pos.mpr (div_pos hLq hcpl)
          have hvis_eq : visualLinesOf cpl line.length =
              ⌈((line.length : ℕ) : ℚ) / cpl⌉ := max_eq_right hceil1
          rw [hvis_eq] at hfloor_eq
          have hchain1 : ((line.length : ℕ) : ℚ) / cpl ≤
              (⌈((line.length : ℕ) : ℚ) / cpl⌉ : ℚ) := Int.le_ceil _
          have hchain2 : ((⌊min (max 0 (i - cch)) ((line.length : ℕ) : ℚ) / cpl⌋ : ℤ) : ℚ) ≤
              min (max 0 (i - cch)) ((line.length : ℕ) : ℚ) / cpl := Int.floor_le _
          rw [hfloor_eq] at hchain2
          have hdeq : min (max 0 (i - cch)) ((line.length : ℕ) : ℚ) / cpl =
              ((line.length : ℕ) : ℚ) / cpl := le_antisymm hdiv (le_trans hchain1 hchain2)
          have heq : min (max 0 (i - cch)) ((line.length : ℕ) : ℚ) =
              ((line.length : ℕ) : ℚ) := by
            have h := congrArg (fun x => x * cpl) hdeq
            simpa [div_mul_cancel₀, ne_of_gt hcpl] using h
          have hmax : ((line.length : ℕ) : ℚ) ≤ max 0 (i - cch) := min_eq_right_iff.mp heq
          have hle : ((line.length : ℕ) : ℚ) ≤ i - cch := by
            rcases le_max_iff.mp hmax with h | h
            · linarith
            · exact h
          have hspan := fullSpan_nonneg rest
          have hrest0 : totalVisualLines cpl rest = 0 := by omega
          have hrestnil : rest = [] := by
            have hlen := length_le_totalVisualLines cpl rest
            rw [hrest0] at hlen
            have hz : rest.length = 0 := by omega
            exact List.length_eq_zero.mp hz
          rw [hrestnil]
          simp [fullSpan]
          linarith
    · rw [if_neg hhit] at h2
      have hrec := ih _ _ _ h2
      constructor
      · omega
      · intro ht
        have h := hrec.2 (by omega)
        linarith

/-- Key round-trip lemma: for a target visual line strictly inside the
remaining total, the inverse walk produces a character position that the
forward walk maps back to exactly that visual line. -/
theorem inverseWalk_forwardWalk (cpl : ℚ) (hcpl : 0 < cpl) (T : ℤ) :
    ∀ (lines : List (List Char)) (cvl : ℤ) (cch : ℚ),
      cvl ≤ T → T < cvl + totalVisualLines cpl lines →
      ∃ c, inverseWalk cpl T lines cvl cch = some c ∧
           forwardWalk cpl c lines cvl cch = Sum.inl T ∧ cch ≤ c := by
  intro lines
  induction lines with
  | nil =>
    intro cvl cch h1 h2
    simp [totalVisualLines] at h2
    omega
  | cons line rest ih =>
    intro cvl cch h1 h2
    by_cases hhit : T < cvl + visualLinesOf cpl line.length
    · have hd : (0 : ℚ) ≤ ((T - cvl : ℤ) : ℚ) := by
        have h : (cvl : ℚ) ≤ (T : ℚ) := by exact_mod_cast h1
        push_cast
        linarith
      have hm0 : (0 : ℚ) ≤ min (((T - cvl : ℤ) : ℚ) * cpl) ((line.length : ℕ) : ℚ) :=
        le_min (mul_nonneg hd (le_of_lt hcpl)) (Nat.cast_nonneg _)
      have hmL : min (((T - cvl : ℤ) : ℚ) * cpl) ((line.length : ℕ) : ℚ) ≤
          ((line.length : ℕ) : ℚ) := min_le_right _ _
      refine ⟨cch + min (((T - cvl : ℤ) : ℚ) * cpl) ((line.length : ℕ) : ℚ), ?_, ?_, ?_⟩
      · simp only [inverseWalk]
        rw [if_pos hhit]
      · simp only [forwardWalk]
        rw [if_pos ⟨by linarith, by linarith⟩]
        congr 1
        have hsub : cch + min (((T - cvl : ℤ) : ℚ) * cpl) ((line.length : ℕ) : ℚ) - cch =
            min (((T - cvl : ℤ) : ℚ) * cpl) ((line.length : ℕ) : ℚ) := by ring
        rw [hsub]
        rw [max_eq_right hm0, min_eq_left hmL]
        by_cases hcase : ((T - cvl : ℤ) : ℚ) * cpl ≤ ((line.length : ℕ) : ℚ)
        · rw [min_eq_left hcase, mul_div_cancel_right₀ _ (ne_of_gt hcpl),
            Int.floor_intCast]
          omega
        · exfalso
          push_neg at hcase
          rcases Nat.eq_zero_or_pos line.length with hL | hL
          · have h0 : ((line.length : ℕ) : ℚ) = 0 := by rw [hL]; simp
            rw [h0] at hcase
            have hTd : (0 : ℤ) < T - cvl := by
              rcases lt_or_le 0 (T - cvl) with hgt | hle
              · exact hgt
              · exfalso
                have hq : ((T - cvl : ℤ) : ℚ) ≤ 0 := by exact_mod_cast hle
                nlinarith [mul_nonpos_of_nonpos_of_nonneg hq (le_of_lt hcpl)]
            have hvL : visualLinesOf cpl 0 = 1 := by norm_num [visualLinesOf]
            rw [hL, hvL] at hhit
            omega
          · have hLq : (0 : ℚ) < ((line.length : ℕ) : ℚ) := by exact_mod_cast hL
            have hceil1 : (1 : ℤ) ≤ ⌈((line.length : ℕ) : ℚ) / cpl⌉ :=
              Int.ceil_pos.mpr (div_pos hLq hcpl)
            have hvis_eq : visualLinesOf cpl line.length =
                ⌈((line.length : ℕ) : ℚ) / cpl⌉ := max_eq_right hceil1
            have hlt : ((line.length : ℕ) : ℚ) / cpl < ((T - cvl : ℤ) : ℚ) :=
              (div_lt_iff₀ hcpl).mpr hcase
            have hceille : ⌈((line.length : ℕ) : ℚ) / cpl⌉ ≤ T - cvl :=
              Int.ceil_le.mpr (by exact_mod_cast le_of_lt hlt)
            rw [hvis_eq] at hhit
            omega
      · linarith
    · rw [totalVisualLines_cons] at h2
      obtain ⟨c, e1, e2, hc⟩ := ih (cvl + visualLinesOf cpl line.length)
        (cch + (line.length : ℕ) + 1) (by omega) (by omega)
      refine ⟨c, ?_, ?_, ?_⟩
      · simp only [inverseWalk]
        rw [if_neg hhit]
        exact e1
      · simp only [forwardWalk]
        rw [if_neg (by push_neg; intro h; linarith)]
        exact e2
      · have hl : (0 : ℚ) ≤ ((line.length : ℕ) : ℚ) := Nat.cast_nonneg _
        linarith

/-- C4: for every character offset i in a non-empty text (0 <= i <= length of
the newline-normalized text), with positive content height and any layout
configuration, feeding estimateScrollY(i) into estimateCharFromScrollY
returns a character position on the same visual (wrapped) line as i, where
the visual line of a position is the one the forward pass of estimateScrollY
assigns to it (targetLineCountOf). -/
theorem C4_roundtrip_same_visual_line (plainText : List Char) (contentHeight : ℚ)
    (cfg : LayoutConfig) (i : ℕ)
    (hne : plainText ≠ []) (hch : 0 < contentHeight)
    (hi : i ≤ (normalizeNewlines plainText).length) :
    targetLineCountOf (charsPerLine cfg)
        (estimateCharFromScrollY
          (estimateScrollY (i : ℚ) plainText contentHeight cfg)
          plainText contentHeight cfg)
        (splitNL (normalizeNewlines plainText)) =
      targetLineCountOf (charsPerLine cfg) (i : ℚ)
        (splitNL (normalizeNewlines plainText)) := by
  have hcpl : 0 < charsPerLine cfg := charsPerLine_pos cfg
  have hntne : normalizeNewlines plainText ≠ [] := normalizeNewlines_ne_nil _ hne
  have hlinesne := splitNL_ne_nil (normalizeNewlines plainText)
  have hspan := fullSpan_splitNL (normalizeNewlines plainText)
  have htotpos : 1 ≤ totalVisualLines (charsPerLine cfg)
      (splitNL (normalizeNewlines plainText)) := by
    obtain ⟨l, ls, h⟩ := List.exists_cons_of_ne_nil hlinesne
    rw [h, totalVisualLines_cons]
    have h1 := visualLinesOf_pos (charsPerLine cfg) l.length
    have h2 := totalVisualLines_nonneg (charsPerLine cfg) ls
    omega
  have htotq : (0 : ℚ) < ((totalVisualLines (charsPerLine cfg)
      (splitNL (normalizeNewlines plainText)) : ℤ) : ℚ) := by exact_mod_cast htotpos
  have hiq : (i : ℚ) ≤ ((normalizeNewlines plainText).length : ℚ) := by exact_mod_cast hi
  obtain ⟨T, hT⟩ := forwardWalk_finds (charsPerLine cfg) (i : ℚ)
    (splitNL (normalizeNewlines plainText)) 0 0 (Nat.cast_nonneg i)
    (by rw [hspan]; linarith)
  have hTnn : 0 ≤ T := forwardWalk_inl_nonneg (charsPerLine cfg) (i : ℚ) hcpl
    (splitNL (normalizeNewlines plainText)) 0 0 T le_rfl hT
  have hTle := forwardWalk_inl_le (charsPerLine cfg) (i : ℚ) hcpl
    (splitNL (normalizeNewlines plainText)) 0 0 T hT
  have htlc_i : targetLineCountOf (charsPerLine cfg) (i : ℚ)
      (splitNL (normalizeNewlines plainText)) = T := by
    simp only [targetLineCountOf, hT]
  have hguard : ¬(normalizeNewlines plainText = [] ∨ contentHeight ≤ 0) :=
    not_or.mpr ⟨hntne, not_le.mpr hch⟩
  have htot0 : ¬(totalVisualLines (charsPerLine cfg)
      (splitNL (normalizeNewlines plainText)) = 0) := by omega
  have hy : estimateScrollY (i : ℚ) plainText contentHeight cfg =
      -(min 1 ((T : ℚ) / ((totalVisualLines (charsPerLine cfg)
          (splitNL (normalizeNewlines plainText)) : ℤ) : ℚ)) * contentHeight) := by
    simp only [estimateScrollY]
    rw [if_neg hguard, if_neg htot0, htlc_i]
  rcases lt_or_eq_of_le (by omega : T ≤ totalVisualLines (charsPerLine cfg)
      (splitNL (normalizeNewlines plainText))) with hcase | hcase
  · -- strict case: the scroll fraction reproduces T exactly
    have hTltq : ((T : ℤ) : ℚ) < ((totalVisualLines (charsPerLine cfg)
        (splitNL (normalizeNewlines plainText)) : ℤ) : ℚ) := by exact_mod_cast hcase
    have hmin : min 1 ((T : ℚ) / ((totalVisualLines (charsPerLine cfg)
        (splitNL (normalizeNewlines plainText)) : ℤ) : ℚ)) =
        (T : ℚ) / ((totalVisualLines (charsPerLine cfg)
          (splitNL (normalizeNewlines plainText)) : ℤ) : ℚ) :=
      min_eq_right (le_of_lt ((div_lt_one htotq).mpr hTltq))
    have hTnnq : (0 : ℚ) ≤ (T : ℚ) := by exact_mod_cast hTnn
    obtain ⟨c, hc1, hc2, hc3⟩ := inverseWalk_forwardWalk (charsPerLine cfg) hcpl T
      (splitNL (normalizeNewlines plainText)) 0 0 hTnn (by omega)
    have heval : estimateCharFromScrollY
        (estimateScrollY (i : ℚ) plainText contentHeight cfg)
        plainText contentHeight cfg = c := by
      simp only [estimateCharFromScrollY]
      rw [if_neg hguard]
      have harg : ⌊|estimateScrollY (i : ℚ) plainText contentHeight cfg| /
          contentHeight * ((totalVisualLines (charsPerLine cfg)
            (splitNL (normalizeNewlines plainText)) : ℤ) : ℚ)⌋ = T := by
        rw [hy, hmin, abs_neg, abs_of_nonneg
          (mul_nonneg (div_nonneg hTnnq (le_of_lt htotq)) (le_of_lt hch)),
          mul_div_assoc, div_self (ne_of_gt hch), mul_one,
          div_mul_cancel₀ _ (ne_of_gt htotq), Int.floor_intCast]
      rw [harg, hc1]
    rw [heval]
    simp only [targetLineCountOf, hc2, hT]
  · -- clamped case: charIndex is at the very end of the text
    have hfs := hTle.2 (by omega)
    rw [hspan] at hfs
    have hieq : (i : ℚ) = ((normalizeNewlines plainText).length : ℚ) := by linarith
    have hmin : min 1 ((T : ℚ) / ((totalVisualLines (charsPerLine cfg)
        (splitNL (normalizeNewlines plainText)) : ℤ) : ℚ)) = 1 := by
      rw [hcase, div_self (ne_of_gt htotq), min_self]
    have heval : estimateCharFromScrollY
        (estimateScrollY (i : ℚ) plainText contentHeight cfg)
        plainText contentHeight cfg = (((normalizeNewlines plainText).length : ℕ) : ℚ) := by
      simp only [estimateCharFromScrollY]
      rw [if_neg hguard]
      have harg : ⌊|estimateScrollY (i : ℚ) plainText contentHeight cfg| /
          contentHeight * ((totalVisualLines (charsPerLine cfg)
            (splitNL (normalizeNewlines plainText)) : ℤ) : ℚ)⌋ =
          totalVisualLines (charsPerLine cfg) (splitNL (normalizeNewlines plainText)) := by
        rw [hy, hmin, one_mul, abs_neg, abs_of_pos hch, div_self (ne_of_gt hch),
          one_mul, Int.floor_intCast]
      rw [harg, inverseWalk_none (charsPerLine cfg) _ _ 0 0 (by omega)]
    rw [heval, ← hieq]

/-- C10: for every non-empty text, positive content height, layout
configuration and arbitrary scroll offset, estimateCharFromScrollY returns a
value within [0, length of the newline-normalized text]; and the returned
offset can be a non-integer: with charsPerLine 21/2 and a 21-character line,
scroll -1 of content height 2 yields offset 21/2, which is not an integer. -/
theorem C10_char_from_scroll_in_bounds (scrollY : ℚ) (plainText : List Char) (contentHeight : ℚ)
    (cfg : LayoutConfig) (hne : plainText ≠ []) (hch : 0 < contentHeight) :
    (0 ≤ estimateCharFromScrollY scrollY plainText contentHeight cfg ∧
     estimateCharFromScrollY scrollY plainText contentHeight cfg ≤
       ((normalizeNewlines plainText).length : ℚ)) ∧
    (estimateCharFromScrollY (-1) (List.replicate 21 'a') 2 layoutCfgExample = 21/2 ∧
     ¬ ∃ z : ℤ, estimateCharFromScrollY (-1) (List.replicate 21 'a') 2 layoutCfgExample =
       (z : ℚ)) := by
  have hconc : estimateCharFromScrollY (-1) (List.replicate 21 'a') 2 layoutCfgExample =
      21/2 := by
    have hcplx : charsPerLine layoutCfgExample = 21/2 := by
      norm_num [charsPerLine, layoutCfgExample, max_def]
    have hnn : normalizeNewlines (List.replicate 21 'a') = List.replicate 21 'a' := by
      decide
    have hsplit : splitNL (List.replicate 21 'a') = [List.replicate 21 'a'] := by decide
    have hlen : (List.replicate 21 'a').length = 21 := by simp
    have hvl : visualLinesOf (21/2) 21 = 2 := by
      norm_num [visualLinesOf]
    have htot : totalVisualLines (21/2) [List.replicate 21 'a'] = 2 := by
      simp only [totalVisualLines, List.map_cons, List.map_nil, hlen, hvl, List.sum_cons,
        List.sum_nil, add_zero]
    simp only [estimateCharFromScrollY, hnn, hsplit, hcplx, htot]
    rw [if_neg (by simp)]
    have harg : ⌊|(-1 : ℚ)| / 2 * ((2 : ℤ) : ℚ)⌋ = 1 := by norm_num
    rw [harg]
    simp only [inverseWalk, hlen, hvl]
    rw [if_pos (by norm_num)]
    norm_num
  refine ⟨?_, hconc, ?_⟩
  · have hcpl : 0 < charsPerLine cfg := charsPerLine_pos cfg
    have hntne : normalizeNewlines plainText ≠ [] := normalizeNewlines_ne_nil _ hne
    have hguard : ¬(normalizeNewlines plainText = [] ∨ contentHeight ≤ 0) :=
      not_or.mpr ⟨hntne, not_le.mpr hch⟩
    have hspan := fullSpan_splitNL (normalizeNewlines plainText)
    have hTnn : 0 ≤ ⌊|scrollY| / contentHeight * ((totalVisualLines (charsPerLine cfg)
        (splitNL (normalizeNewlines plainText)) : ℤ) : ℚ)⌋ :=
      Int.floor_nonneg.mpr (mul_nonneg (div_nonneg (abs_nonneg _) (le_of_lt hch))
        (by exact_mod_cast totalVisualLines_nonneg (charsPerLine cfg) _))
    simp only [estimateCharFromScrollY]
    rw [if_neg hguard]
    rcases heq : inverseWalk (charsPerLine cfg)
        ⌊|scrollY| / contentHeight * ((totalVisualLines (charsPerLine cfg)
          (splitNL (normalizeNewlines plainText)) : ℤ) : ℚ)⌋
        (splitNL (normalizeNewlines plainText)) 0 0 with _ | c
    · simp only [heq]
      exact ⟨Nat.cast_nonneg _, le_refl _⟩
    · have hb := inverseWalk_some_bounds (charsPerLine cfg) hcpl _
        (splitNL (normalizeNewlines plainText)) 0 0 c hTnn heq
      simp only [heq]
      refine ⟨by linarith [hb.1], by rw [hspan] at hb; linarith [hb.2]⟩
  · rintro ⟨z, hz⟩
    rw [hconc] at hz
    field_simp at hz
    have hzz : (21 : ℤ) = z * 2 := by exact_mod_cast hz
    omega

/-- C4 witness at a concrete two-line text. -/
theorem C4_roundtrip_same_visual_line_witness :
    targetLineCountOf (charsPerLine layoutCfgExample)
        (estimateCharFromScrollY
          (estimateScrollY ((3 : ℕ) : ℚ) (wd "hello\nworld") 100 layoutCfgExample)
          (wd "hello\nworld") 100 layoutCfgExample)
        (splitNL (normalizeNewlines (wd "hello\nworld"))) =
      targetLineCountOf (charsPerLine layoutCfgExample) ((3 : ℕ) : ℚ)
        (splitNL (normalizeNewlines (wd "hello\nworld"))) :=
  C4_roundtrip_same_visual_line (wd "hello\nworld") 100 layoutCfgExample 3
    (by decide) (by norm_num) (by decide)

/-- C10 witness at a concrete text and scroll offset. -/
theorem C10_char_from_scroll_in_bounds_witness :
    (0 ≤ estimateCharFromScrollY 5 (wd "abc") 1 layoutCfgExample ∧
     estimateCharFromScrollY 5 (wd "abc") 1 layoutCfgExample ≤
       ((normalizeNewlines (wd "abc")).length : ℚ)) ∧
    (estimateCharFromScrollY (-1) (List.replicate 21 'a') 2 layoutCfgExample = 21/2 ∧
     ¬ ∃ z : ℤ, estimateCharFromScrollY (-1) (List.replicate 21 'a') 2 layoutCfgExample =
       (z : ℚ)) :=
  C10_char_from_scroll_in_bounds 5 (wd "abc") 1 layoutCfgExample (by decide) (by norm_num)
